import Mathlib

/-!
Verification of the pattern compiler of pgdesc: the scanner parsePattern,
the clause compiler processSQLNamePattern and the literal quoter
stringLiteral, embedded at byte level from the Go source file.  Go strings
are modelled as lists of byte values (Nat) so that the byte indexing of
the scanner and the multi byte handling of the source are reproduced
exactly.  The loops of the source are embedded with an explicit fuel
argument equal to the number of bytes still to scan, which is proved
sufficient (the fuel irrelevance lemmas below), so every definition is
executable by kernel reduction.
-/

namespace PgDesc

/-- UTF-8 encoding of a code point, as produced by a Go string conversion
of a rune value. -/
def utf8EncodeNat (n : Nat) : List Nat :=
  if n < 128 then [n]
  else if n < 2048 then [192 + n / 64, 128 + n % 64]
  else if n < 65536 then [224 + n / 4096, 128 + n / 64 % 64, 128 + n % 64]
  else [240 + n / 262144, 128 + n / 4096 % 64, 128 + n / 64 % 64, 128 + n % 64]

/-- Byte list of a list of characters, UTF-8 encoded. -/
def bytesOfChars : List Char → List Nat
  | [] => []
  | c :: cs => utf8EncodeNat c.toNat ++ bytesOfChars cs

/-- Byte list of a Lean string, used to transcribe the Go string literals
of the source. -/
def strBytes (s : String) : List Nat := bytesOfChars s.data

/-- Embedding of utf8.DecodeRuneInString of the Go standard library: the
first code point of a byte sequence together with its width.  An empty
input yields width 0; any invalid encoding yields the replacement
character 65533 with width 1, exactly as in Go. -/
def decodeRune (s : List Nat) : Nat × Nat :=
  match s with
  | [] => (65533, 0)
  | b0 :: rest =>
    if b0 < 128 then (b0, 1)
    else if 194 ≤ b0 ∧ b0 ≤ 223 then
      if 1 ≤ rest.length ∧ 128 ≤ rest.getD 0 0 ∧ rest.getD 0 0 ≤ 191 then
        ((b0 - 192) * 64 + (rest.getD 0 0 - 128), 2)
      else (65533, 1)
    else if 224 ≤ b0 ∧ b0 ≤ 239 then
      if 2 ≤ rest.length ∧
          (if b0 = 224 then 160 else 128) ≤ rest.getD 0 0 ∧
          rest.getD 0 0 ≤ (if b0 = 237 then 159 else 191) ∧
          128 ≤ rest.getD 1 0 ∧ rest.getD 1 0 ≤ 191 then
        ((b0 - 224) * 4096 + (rest.getD 0 0 - 128) * 64 + (rest.getD 1 0 - 128), 3)
      else (65533, 1)
    else if 240 ≤ b0 ∧ b0 ≤ 244 then
      if 3 ≤ rest.length ∧
          (if b0 = 240 then 144 else 128) ≤ rest.getD 0 0 ∧
          rest.getD 0 0 ≤ (if b0 = 244 then 143 else 191) ∧
          128 ≤ rest.getD 1 0 ∧ rest.getD 1 0 ≤ 191 ∧
          128 ≤ rest.getD 2 0 ∧ rest.getD 2 0 ≤ 191 then
        ((b0 - 240) * 262144 + (rest.getD 0 0 - 128) * 4096 +
          (rest.getD 1 0 - 128) * 64 + (rest.getD 2 0 - 128), 4)
      else (65533, 1)
    else (65533, 1)

/-- Lowercase hexadecimal digit byte, as in the lowerhex table of Go
strconv. -/
def lowerHexDigit (n : Nat) : Nat := if n < 10 then 48 + n else 97 + (n - 10)

/-- Two lowercase hex digit bytes of a byte value. -/
def hex2 (n : Nat) : List Nat := [lowerHexDigit (n / 16 % 16), lowerHexDigit (n % 16)]

/-- Four lowercase hex digit bytes of a code point below 65536. -/
def hex4 (n : Nat) : List Nat :=
  [lowerHexDigit (n / 4096 % 16), lowerHexDigit (n / 256 % 16),
    lowerHexDigit (n / 16 % 16), lowerHexDigit (n % 16)]

/-- Eight lowercase hex digit bytes of a code point. -/
def hex8 (n : Nat) : List Nat := hex4 (n / 65536) ++ hex4 (n % 65536)

/-- The inner default switch of the escaped rune rendering in Go strconv:
hex escape for remaining control bytes, the replacement character for an
invalid rune value, then the four and eight digit unicode escapes. -/
def escHexFallback (r : Nat) : List Nat :=
  if r < 32 ∨ r = 127 then [92, 120] ++ hex2 r
  else if (55296 ≤ r ∧ r ≤ 57343) ∨ 1114111 < r then [92, 117] ++ hex4 65533
  else if r < 65536 then [92, 117] ++ hex4 r
  else [92, 85] ++ hex8 r

/-- The named control escape switch of the escaped rune rendering in Go
strconv, falling through to the hex escapes. -/
def escControlOrHex (r : Nat) : List Nat :=
  if r = 7 then [92, 97]
  else if r = 8 then [92, 98]
  else if r = 12 then [92, 102]
  else if r = 10 then [92, 110]
  else if r = 13 then [92, 114]
  else if r = 9 then [92, 116]
  else if r = 11 then [92, 118]
  else escHexFallback r

/-- Embedding of the escaped form of one rune in strconv.QuoteToASCII of
the Go standard library (quote byte 34, ASCII only mode): the quote byte
and the backslash are backslash escaped, printable ASCII passes through,
everything else goes to the escape switches. -/
def escapedRune (r : Nat) : List Nat :=
  if r = 34 ∨ r = 92 then [92, r]
  else if 32 ≤ r ∧ r ≤ 126 then [r]
  else escControlOrHex r

/-- Body of strconv.QuoteToASCII: the loop over the byte groups of the
input.  A byte below 128 is escaped directly; an invalid encoding is
rendered as a hex escape of its first byte; a decoded rune is escaped as
a whole and its full width consumed.  The fuel argument counts loop
steps; strBytes length fuel is sufficient since each step consumes at
least one byte. -/
def quoteBody (fuel : Nat) (s : List Nat) : List Nat :=
  match fuel, s with
  | 0, _ => []
  | _ + 1, [] => []
  | fuel + 1, b :: rest =>
    if b < 128 then escapedRune b ++ quoteBody fuel rest
    else if (decodeRune (b :: rest)).2 = 1 ∧ (decodeRune (b :: rest)).1 = 65533 then
      [92, 120] ++ hex2 b ++ quoteBody fuel rest
    else
      escapedRune (decodeRune (b :: rest)).1 ++
        quoteBody fuel ((b :: rest).drop (decodeRune (b :: rest)).2)

/-- strconv.QuoteToASCII: the escaped body wrapped in double quote
bytes. -/
def quoteToASCII (s : List Nat) : List Nat := [34] ++ quoteBody s.length s ++ [34]

/-- strings.Replace with the single quote byte as the pattern and two
single quote bytes as the replacement, replacing every occurrence. -/
def doubleQuotes : List Nat → List Nat
  | [] => []
  | b :: rest => (if b = 39 then [39, 39] else [b]) ++ doubleQuotes rest

/-- stringLiteral from the source: QuoteToASCII, strip the surrounding
double quote bytes, double every single quote byte, and wrap the result
in byte 69 (the letter E) and single quote bytes (39). -/
def stringLiteral (s : List Nat) : List Nat :=
  [69, 39] ++ doubleQuotes (((quoteToASCII s).drop 1).dropLast) ++ [39]

example : strBytes "^(" = [94, 40] := by decide

example : stringLiteral [99, 97, 110, 39, 116] =
    [69, 39, 99, 97, 110, 39, 39, 116, 39] := by decide

/-- unicode.IsUpper applied to rune(ch) for a single byte ch, as in the
scanner: ASCII capitals and the Latin-1 capitals 192 to 222 except the
multiplication sign 215. -/
def isUpperByte (c : Nat) : Bool :=
  (decide (65 ≤ c) && decide (c ≤ 90)) ||
    (decide (192 ≤ c) && decide (c ≤ 222) && !(decide (c = 215)))

/-- Membership of a byte in the regexp special set of the source. -/
def isRegexSpecial (c : Nat) : Bool :=
  decide (c = 124) || decide (c = 42) || decide (c = 43) || decide (c = 63) ||
    decide (c = 40) || decide (c = 41) || decide (c = 91) || decide (c = 93) ||
    decide (c = 123) || decide (c = 125) || decide (c = 46) || decide (c = 94) ||
    decide (c = 36) || decide (c = 92)

/-- The byte after position i, or 0 at the end, as computed at the top of
the scanner loop. -/
def nextByte (pat : List Nat) (i : Nat) : Nat :=
  if i < pat.length - 1 then pat.getD (i + 1) 0 else 0

/-- The scanner loop of parsePattern, transcribed case by case from the
source.  The for statement of the source increments i after every
iteration in addition to the increments inside each case, so the total
advances are: 3 for an escaped double quote pair, 2 for every other
explicit case, and the decoded width plus 1 for the default case.  The
escaped double quote case passes the rune constant for the double quote
to fmt.Fprint, which renders its decimal value, the two bytes 51 and 52.
The fuel argument counts loop steps and the byte count of the pattern is
sufficient since i strictly increases. -/
def parseLoop (fuel : Nat) (pat : List Nat) (forceEscape : Bool) (i : Nat)
    (inquotes : Bool) (schemabuf namebuf : List Nat) : List Nat × List Nat :=
  match fuel with
  | 0 => (schemabuf, namebuf)
  | fuel + 1 =>
    if i < pat.length then
      if pat.getD i 0 = 34 then
        if inquotes ∧ nextByte pat i = 34 then
          parseLoop fuel pat forceEscape (i + 3) inquotes schemabuf (namebuf ++ strBytes "34")
        else
          parseLoop fuel pat forceEscape (i + 2) (!inquotes) schemabuf namebuf
      else if ¬inquotes ∧ isUpperByte (pat.getD i 0) = true then
        parseLoop fuel pat forceEscape (i + 2) inquotes schemabuf
          (namebuf ++ utf8EncodeNat (pat.getD i 0 + 32))
      else if ¬inquotes ∧ pat.getD i 0 = 42 then
        parseLoop fuel pat forceEscape (i + 2) inquotes schemabuf (namebuf ++ strBytes ".*")
      else if ¬inquotes ∧ pat.getD i 0 = 63 then
        parseLoop fuel pat forceEscape (i + 2) inquotes schemabuf (namebuf ++ strBytes ".")
      else if ¬inquotes ∧ pat.getD i 0 = 46 then
        parseLoop fuel pat forceEscape (i + 2) inquotes namebuf (strBytes "^(")
      else if pat.getD i 0 = 36 then
        parseLoop fuel pat forceEscape (i + 2) inquotes schemabuf (namebuf ++ strBytes "\\$")
      else
        parseLoop fuel pat forceEscape (i + (decodeRune (pat.drop i)).2 + 1) inquotes schemabuf
          (namebuf ++
            (if inquotes ∨ (forceEscape = true ∧ isRegexSpecial (pat.getD i 0) = true)
              then strBytes "\\" else []) ++
            utf8EncodeNat (decodeRune (pat.drop i)).1)
    else (schemabuf, namebuf)

/-- parsePattern from the source: run the scanner over the whole pattern
starting outside quotes, returning the updated schema and name
buffers. -/
def parsePattern (schemabuf namebuf : List Nat) (pattern : List Nat)
    (forceEscape : Bool) : List Nat × List Nat :=
  parseLoop pattern.length pattern forceEscape 0 false schemabuf namebuf

/-- The WHEREAND block of the source: the text written before a
predicate. -/
def whereAnd (haveWhere : Bool) : List Nat :=
  if haveWhere then strBytes "  AND " else strBytes "WHERE "

/-- The name predicate of processSQLNamePattern, without its WHEREAND
text and without the final newline: either a parenthesized disjunction
over namevar and altnamevar, or a single match against namevar. -/
def namePred (namevar altnamevar : String) (nameRe : List Nat) : List Nat :=
  if altnamevar ≠ "" then
    strBytes ("(" ++ namevar ++ " OPERATOR(pg_catalog.~) ") ++ stringLiteral nameRe ++
      strBytes ("\n        OR " ++ altnamevar ++ " OPERATOR(pg_catalog.~) ") ++
      stringLiteral nameRe ++ strBytes ")"
  else
    strBytes (namevar ++ " OPERATOR(pg_catalog.~) ") ++ stringLiteral nameRe

/-- The schema predicate of processSQLNamePattern, without its WHEREAND
text and without the final newline. -/
def schemaPred (schemavar : String) (schemaRe : List Nat) : List Nat :=
  strBytes (schemavar ++ " OPERATOR(pg_catalog.~) ") ++ stringLiteral schemaRe

/-- The name block of processSQLNamePattern: emit a name predicate when
the name buffer holds more than the two seed bytes and does not finalize
to the unconstrained regexp.  Returns the appended text, the updated
haveWhere and the updated addedClause. -/
def nameSection (haveWhere : Bool) (namevar altnamevar : String) (namebuf : List Nat) :
    List Nat × Bool × Bool :=
  if 2 < namebuf.length ∧ namebuf ++ strBytes ")$" ≠ strBytes "^(.*)$" then
    (whereAnd haveWhere ++ namePred namevar altnamevar (namebuf ++ strBytes ")$") ++
      strBytes "\n", true, true)
  else ([], haveWhere, false)

/-- The schema block of processSQLNamePattern, taking the state of the
name block: emit a schema predicate when the schema buffer holds more
than two bytes, is not the unconstrained regexp and schemavar is
nonempty; when the schema buffer holds at most two bytes, fall back to
the visibility rule if present.  Returns the whole appended text and the
final addedClause. -/
def schemaSection (st : List Nat × Bool × Bool) (schemavar visibilityrule : String)
    (schemabuf : List Nat) : List Nat × Bool :=
  if 2 < schemabuf.length then
    if schemabuf ++ strBytes ")$" ≠ strBytes "^(.*)$" ∧ schemavar ≠ "" then
      (st.1 ++ whereAnd st.2.1 ++ schemaPred schemavar (schemabuf ++ strBytes ")$") ++
        strBytes "\n", true)
    else (st.1, st.2.2)
  else
    if visibilityrule = "" then (st.1, st.2.2)
    else (st.1 ++ whereAnd st.2.1 ++ strBytes visibilityrule ++ strBytes "\n", true)

/-- processSQLNamePattern from the source.  The io.Writer parameter of
the source becomes the first component of the result: the text the call
appends.  The second component is the addedClause return value.  An
empty pattern selects all visible objects; a nonempty pattern is parsed
with the name buffer seeded with the two bytes of the caret and the open
parenthesis, and the two emission blocks run in order. -/
def processSQLNamePattern (pattern : List Nat) (haveWhere forceEscape : Bool)
    (schemavar namevar altnamevar visibilityrule : String) : List Nat × Bool :=
  if pattern = [] then
    if visibilityrule = "" then ([], false)
    else (whereAnd haveWhere ++ strBytes visibilityrule ++ strBytes "\n", true)
  else
    schemaSection
      (nameSection haveWhere namevar altnamevar
        (parsePattern [] (strBytes "^(") pattern forceEscape).2)
      schemavar visibilityrule
      (parsePattern [] (strBytes "^(") pattern forceEscape).1

/-- Rendering of a list of predicate bodies under the WHEREAND
discipline: the first body after text written with the incoming
haveWhere, every later body after the text for haveWhere true, each body
followed by a newline byte. -/
def renderPreds (haveWhere : Bool) : List (List Nat) → List Nat
  | [] => []
  | p :: rest => whereAnd haveWhere ++ p ++ strBytes "\n" ++ renderPreds true rest

/-- A nonempty byte sequence always decodes with width at least one. -/
theorem decodeRune_pos (b : Nat) (rest : List Nat) : 1 ≤ (decodeRune (b :: rest)).2 := by
  simp only [decodeRune]
  split_ifs <;> simp

/-- Fuel irrelevance for the scanner loop: any fuel at least the number
of bytes still to scan yields the same result, so the loop genuinely
reaches its exit condition. -/
theorem parseLoop_fuel_eq (pat : List Nat) (fe : Bool) :
    ∀ f1 f2 i inq sb nb, pat.length - i ≤ f1 → pat.length - i ≤ f2 →
      parseLoop f1 pat fe i inq sb nb = parseLoop f2 pat fe i inq sb nb := by
  intro f1
  induction f1 with
  | zero =>
    intro f2 i inq sb nb h1 h2
    have hi : ¬ i < pat.length := by omega
    cases f2 with
    | zero => rfl
    | succ f2 => simp [parseLoop, hi]
  | succ f1 ih =>
    intro f2 i inq sb nb h1 h2
    cases f2 with
    | zero =>
      have hi : ¬ i < pat.length := by omega
      simp [parseLoop, hi]
    | succ f2 =>
      by_cases hi : i < pat.length
      · simp only [parseLoop, if_pos hi]
        split_ifs <;> exact ih _ _ _ _ _ (by omega) (by omega)
      · simp [parseLoop, hi]

/-- Fuel irrelevance for the quoter loop: any fuel at least the length of
the remaining input yields the same result. -/
theorem quoteBody_fuel_eq :
    ∀ f1 f2 (s : List Nat), s.length ≤ f1 → s.length ≤ f2 →
      quoteBody f1 s = quoteBody f2 s := by
  intro f1
  induction f1 with
  | zero =>
    intro f2 s h1 h2
    have hs : s = [] := by cases s with
      | nil => rfl
      | cons b rest => simp at h1
    subst hs
    cases f2 <;> rfl
  | succ f1 ih =>
    intro f2 s h1 h2
    cases f2 with
    | zero =>
      have hs : s = [] := by cases s with
        | nil => rfl
        | cons b rest => simp at h2
      subst hs
      rfl
    | succ f2 =>
      cases s with
      | nil => rfl
      | cons b rest =>
        have hlen : rest.length ≤ f1 ∧ rest.length ≤ f2 := by
          simp only [List.length_cons] at h1 h2
          omega
        have hd := decodeRune_pos b rest
        have hdrop : ((b :: rest).drop (decodeRune (b :: rest)).2).length ≤ f1 ∧
            ((b :: rest).drop (decodeRune (b :: rest)).2).length ≤ f2 := by
          simp only [List.length_drop, List.length_cons] at *
          omega
        simp only [quoteBody]
        split_ifs
        · rw [ih f2 rest hlen.1 hlen.2]
        · rw [ih f2 rest hlen.1 hlen.2]
        · rw [ih f2 _ hdrop.1 hdrop.2]

/-- A byte is a printable ASCII character: space through tilde. -/
def printableByte (b : Nat) : Bool := decide (32 ≤ b) && decide (b ≤ 126)

theorem lowerHexDigit_printable {n : Nat} (h : n < 16) :
    printableByte (lowerHexDigit n) = true := by
  simp only [printableByte, lowerHexDigit, Bool.and_eq_true, decide_eq_true_eq]
  split_ifs <;> omega

theorem hex2_printable (n : Nat) : (hex2 n).all printableByte = true := by
  simp only [hex2, List.all_cons, List.all_nil, Bool.and_eq_true]
  exact ⟨lowerHexDigit_printable (Nat.mod_lt _ (by omega)),
    lowerHexDigit_printable (Nat.mod_lt _ (by omega)), trivial⟩

theorem hex4_printable (n : Nat) : (hex4 n).all printableByte = true := by
  simp only [hex4, List.all_cons, List.all_nil, Bool.and_eq_true]
  exact ⟨lowerHexDigit_printable (Nat.mod_lt _ (by omega)),
    lowerHexDigit_printable (Nat.mod_lt _ (by omega)),
    lowerHexDigit_printable (Nat.mod_lt _ (by omega)),
    lowerHexDigit_printable (Nat.mod_lt _ (by omega)), trivial⟩

theorem hex8_printable (n : Nat) : (hex8 n).all printableByte = true := by
  simp only [hex8, List.all_append, Bool.and_eq_true]
  exact ⟨hex4_printable _, hex4_printable _⟩

theorem escHexFallback_printable (r : Nat) :
    (escHexFallback r).all printableByte = true := by
  unfold escHexFallback
  split_ifs
  · rw [List.all_append, hex2_printable]; decide
  · decide
  · rw [List.all_append, hex4_printable]; decide
  · rw [List.all_append, hex8_printable]; decide

theorem escControlOrHex_printable (r : Nat) :
    (escControlOrHex r).all printableByte = true := by
  unfold escControlOrHex
  split_ifs <;> first | decide | exact escHexFallback_printable r

theorem escapedRune_printable (r : Nat) : (escapedRune r).all printableByte = true := by
  unfold escapedRune
  split_ifs with h1 h2
  · obtain rfl | rfl := h1 <;> decide
  · simp only [List.all_cons, List.all_nil, Bool.and_true, printableByte,
      Bool.and_eq_true, decide_eq_true_eq]
    omega
  · exact escControlOrHex_printable r

theorem quoteBody_printable : ∀ fuel s, (quoteBody fuel s).all printableByte = true := by
  intro fuel
  induction fuel with
  | zero => intro s; rfl
  | succ fuel ih =>
    intro s
    cases s with
    | nil => rfl
    | cons b rest =>
      simp only [quoteBody]
      split_ifs
      · rw [List.all_append, escapedRune_printable, ih]; rfl
      · rw [List.all_append, List.all_append, hex2_printable, ih]; rfl
      · rw [List.all_append, escapedRune_printable, ih]; rfl

theorem doubleQuotes_printable :
    ∀ l : List Nat, l.all printableByte = true → (doubleQuotes l).all printableByte = true := by
  intro l
  induction l with
  | nil => intro _; rfl
  | cons b rest ih =>
    intro h
    simp only [List.all_cons, Bool.and_eq_true] at h
    simp only [doubleQuotes, List.all_append, Bool.and_eq_true]
    refine ⟨?_, ih h.2⟩
    split_ifs with hb
    · decide
    · simp [List.all_cons, h.1]

theorem dropLast_append_single (x : List Nat) (a : Nat) : (x ++ [a]).dropLast = x := by
  induction x with
  | nil => rfl
  | cons b xs ih =>
    cases xs with
    | nil => rfl
    | cons c ys => simp [List.dropLast, ih]

/-- Stripping the surrounding double quote bytes of QuoteToASCII recovers
exactly the escaped body. -/
theorem quoteToASCII_strip (s : List Nat) :
    ((quoteToASCII s).drop 1).dropLast = quoteBody s.length s := by
  simp only [quoteToASCII, List.drop, List.singleton_append]
  exact dropLast_append_single _ _

theorem stringLiteral_shape (s : List Nat) :
    stringLiteral s = [69, 39] ++ doubleQuotes (quoteBody s.length s) ++ [39] := by
  simp only [stringLiteral, quoteToASCII_strip]

/-- Whatever the parse buffers hold, the text the two emission blocks
append is a rendering of some list of predicate bodies under the
WHEREAND discipline. -/
theorem sections_render (hw : Bool) (nv av sv vis : String) (sb nb : List Nat) :
    ∃ preds : List (List Nat),
      (schemaSection (nameSection hw nv av nb) sv vis sb).1 = renderPreds hw preds := by
  by_cases h1 : 2 < nb.length ∧ nb ++ strBytes ")$" ≠ strBytes "^(.*)$"
  · by_cases h2 : 2 < sb.length
    · by_cases h3 : sb ++ strBytes ")$" ≠ strBytes "^(.*)$" ∧ sv ≠ ""
      · exact ⟨[namePred nv av (nb ++ strBytes ")$"), schemaPred sv (sb ++ strBytes ")$")],
          by simp [nameSection, schemaSection, renderPreds, h1, h2, h3, List.append_assoc]⟩
      · exact ⟨[namePred nv av (nb ++ strBytes ")$")],
          by simp [nameSection, schemaSection, renderPreds, h1, h2, h3, List.append_assoc]⟩
    · by_cases h4 : vis = ""
      · exact ⟨[namePred nv av (nb ++ strBytes ")$")],
          by simp [nameSection, schemaSection, renderPreds, h1, h2, h4, List.append_assoc]⟩
      · exact ⟨[namePred nv av (nb ++ strBytes ")$"), strBytes vis],
          by simp [nameSection, schemaSection, renderPreds, h1, h2, h4, List.append_assoc]⟩
  · by_cases h2 : 2 < sb.length
    · by_cases h3 : sb ++ strBytes ")$" ≠ strBytes "^(.*)$" ∧ sv ≠ ""
      · exact ⟨[schemaPred sv (sb ++ strBytes ")$")],
          by simp [nameSection, schemaSection, renderPreds, h1, h2, h3, List.append_assoc]⟩
      · exact ⟨[], by simp [nameSection, schemaSection, renderPreds, h1, h2, h3]⟩
    · by_cases h4 : vis = ""
      · exact ⟨[], by simp [nameSection, schemaSection, renderPreds, h1, h2, h4]⟩
      · exact ⟨[strBytes vis],
          by simp [nameSection, schemaSection, renderPreds, h1, h2, h4, List.append_assoc]⟩

/-- C1: for the pattern with the quoted segment Foo, a dot and the
capital Bar, with forceEscape false, the scanner does NOT produce the
claimed buffers caret paren Foo and caret paren bar.  Because the for
statement of the source adds an extra index increment on top of the
increments inside each case, every other byte is skipped: the dot
separator and the closing quote handling are never seen, and the scan
leaves the schema buffer empty and the name buffer holding the six bytes
of caret, paren, backslash, o, b, r. -/
theorem claim1_quoted_pattern_scan :
    parsePattern [] (strBytes "^(") (strBytes "\"Foo\".Bar") false =
      ([], strBytes "^(" ++ [92, 111, 98, 114]) ∧
    parsePattern [] (strBytes "^(") (strBytes "\"Foo\".Bar") false ≠
      (strBytes "^(Foo", strBytes "^(bar") := by decide

/-- C2: the pattern a dot b contains exactly one unquoted dot, yet the
scanner never performs the schema and name split: the dot sits at an odd
index and is skipped by the double increment, so the schema buffer stays
empty and the name buffer accumulates both letters. -/
theorem claim2_separator_skipped :
    parsePattern [] (strBytes "^(") (strBytes "a.b") false = ([], strBytes "^(ab") ∧
    parsePattern [] (strBytes "^(") (strBytes "a.b") false ≠
      (strBytes "^(a", strBytes "^(b") := by decide

/-- C3: for four double quote bytes in a row the scanner reaches the
escaped quote case (inquotes with the next byte also a double quote), but
the source passes the rune constant for the double quote to fmt.Fprint,
which renders the decimal value 34: the two digit bytes 51 and 52 land in
the name buffer instead of one double quote byte 34. -/
theorem claim3_escaped_quote_digits :
    parsePattern [] (strBytes "^(") [34, 34, 34, 34] false = ([], strBytes "^(34") ∧
    parsePattern [] (strBytes "^(") [34, 34, 34, 34] false ≠
      ([], strBytes "^(" ++ [34]) := by decide

/-- C4: the pattern star dot star does NOT compile to no predicate: the
dot separator is skipped by the double increment, the name buffer becomes
caret paren dot star dot star, which is not the unconstrained regexp, and
a name predicate is emitted with addedClause true.  The single star
pattern is optimized away as claimed. -/
theorem claim4_star_dot_star_predicate :
    processSQLNamePattern (strBytes "*.*") false false "n.nspname" "c.relname" "" "" =
      (strBytes "WHERE c.relname OPERATOR(pg_catalog.~) " ++ [69, 39] ++
        strBytes "^(.*.*)$" ++ [39] ++ strBytes "\n", true) ∧
    processSQLNamePattern (strBytes "*") false false "n.nspname" "c.relname" "" "" =
      ([], false) := by decide

/-- C5: for every input the text appended by the clause compiler is a
rendering of a list of predicate bodies in which the first body is
preceded by WHERE when haveWhere is false and by two spaces AND a space
otherwise, every later body is preceded by the AND text, and every body
is followed by a newline byte; concretely, a call with haveWhere true
(as after a chained call that added a clause) prefixes its predicate
with the AND text. -/
theorem claim5_whereand_threading :
    (∀ (pat : List Nat) (hw fe : Bool) (sv nv av vis : String),
        ∃ preds : List (List Nat),
          (processSQLNamePattern pat hw fe sv nv av vis).1 = renderPreds hw preds) ∧
    processSQLNamePattern (strBytes "bar") true false "" "c.relname" "" "" =
      (strBytes "  AND c.relname OPERATOR(pg_catalog.~) " ++ [69, 39] ++
        strBytes "^(br)$" ++ [39] ++ strBytes "\n", true) := by
  constructor
  · intro pat hw fe sv nv av vis
    by_cases hp : pat = []
    · subst hp
      by_cases hv : vis = ""
      · exact ⟨[], by simp [processSQLNamePattern, hv, renderPreds]⟩
      · exact ⟨[strBytes vis],
          by simp [processSQLNamePattern, hv, renderPreds, List.append_assoc]⟩
    · simp only [processSQLNamePattern, if_neg hp]
      exact sections_render hw nv av sv vis _ _
  · decide

/-- C6: for the empty pattern, a nonempty visibility rule is emitted as
the next predicate under the WHEREAND rule with addedClause true, and an
empty visibility rule emits nothing with addedClause false; concretely,
haveWhere false with the visibility rule of the spec appends exactly the
WHERE line for it. -/
theorem claim6_empty_pattern :
    (∀ (hw fe : Bool) (sv nv av vis : String), vis ≠ "" →
        processSQLNamePattern [] hw fe sv nv av vis =
          (whereAnd hw ++ strBytes vis ++ strBytes "\n", true)) ∧
    (∀ (hw fe : Bool) (sv nv av : String),
        processSQLNamePattern [] hw fe sv nv av "" = ([], false)) ∧
    processSQLNamePattern [] false false "n.nspname" "c.relname" "" "v.is_visible(c.oid)" =
      (strBytes "WHERE v.is_visible(c.oid)\n", true) := by
  refine ⟨?_, ?_, by decide⟩
  · intro hw fe sv nv av vis hv
    simp [processSQLNamePattern, hv]
  · intro hw fe sv nv av
    simp [processSQLNamePattern]

/-- C6 witness: the first part of the empty pattern theorem applied at a
concrete visibility rule. -/
theorem claim6_empty_pattern_witness :
    processSQLNamePattern [] true false "" "" "" "pg_catalog.pg_table_is_visible(c.oid)" =
      (whereAnd true ++ strBytes "pg_catalog.pg_table_is_visible(c.oid)" ++ strBytes "\n",
        true) :=
  claim6_empty_pattern.1 true false "" "" "" "pg_catalog.pg_table_is_visible(c.oid)"
    (by decide)

/-- C7: the literal quoter is a total function on byte sequences; on the
bytes of the word can, a single quote byte and the letter t it returns
byte 69 (the letter E), a single quote byte, the word with its embedded
single quote byte doubled, and a closing single quote byte; and for
every input the result is wrapped in the extended literal delimiter
bytes. -/
theorem claim7_string_literal :
    stringLiteral [99, 97, 110, 39, 116] = [69, 39, 99, 97, 110, 39, 39, 116, 39] ∧
    ∀ s : List Nat, ∃ t : List Nat, stringLiteral s = [69, 39] ++ t ++ [39] := by
  refine ⟨by decide, ?_⟩
  intro s
  exact ⟨doubleQuotes (((quoteToASCII s).drop 1).dropLast), rfl⟩

/-- C8: the scanner does NOT process multi byte characters atomically.
For the two byte encoding 195, 137 of the capital letter E with acute
accent, the unquoted uppercase case fires on the first byte alone
(unicode.IsUpper of rune 195), emits the lowercase form 195, 163 of the
Latin-1 character 195 and skips into the middle of the encoding: the
input code point appears in the output neither intact nor case folded as
a whole (which would be 195, 169). -/
theorem claim8_multibyte_split :
    parsePattern [] (strBytes "^(") [195, 137] false = ([], [94, 40, 195, 163]) ∧
    parsePattern [] (strBytes "^(") [195, 137] false ≠
      ([], strBytes "^(" ++ [195, 137]) ∧
    parsePattern [] (strBytes "^(") [195, 137] false ≠
      ([], strBytes "^(" ++ [195, 169]) := by decide

/-- C9: the scan always completes and the compiler always returns.  The
scanner loop run with any fuel beyond the byte count of the pattern
equals the scan itself, and likewise for the quoter loop, so both loops
reach their exit conditions within the stated fuel; and every compile
call returns a result pair. -/
theorem claim9_always_terminates :
    (∀ (sb nb pat : List Nat) (fe : Bool) (extra : Nat),
        parseLoop (pat.length + extra) pat fe 0 false sb nb = parsePattern sb nb pat fe) ∧
    (∀ (s : List Nat) (extra : Nat),
        quoteBody (s.length + extra) s = quoteBody s.length s) ∧
    (∀ (pat : List Nat) (hw fe : Bool) (sv nv av vis : String),
        ∃ (out : List Nat) (added : Bool),
          processSQLNamePattern pat hw fe sv nv av vis = (out, added)) := by
  refine ⟨?_, ?_, ?_⟩
  · intro sb nb pat fe extra
    exact parseLoop_fuel_eq pat fe _ _ 0 false sb nb (by omega) (by omega)
  · intro s extra
    exact quoteBody_fuel_eq _ _ s (by omega) (by omega)
  · intro pat hw fe sv nv av vis
    exact ⟨_, _, rfl⟩

/-- C10: every byte of the output of the literal quoter is printable
ASCII, from space to tilde: every non ASCII code point and every control
byte of the input is replaced by a backslash escape sequence before the
quote doubling and the wrapping. -/
theorem claim10_literal_printable_ascii :
    ∀ s : List Nat, (stringLiteral s).all printableByte = true := by
  intro s
  rw [stringLiteral_shape]
  simp only [List.all_append, Bool.and_eq_true]
  exact ⟨⟨by decide, doubleQuotes_printable _ (quoteBody_printable _ _)⟩, by decide⟩

end PgDesc
